import Mathlib

/-!
Verification of the internal-acme-dns server (src/internal-acme-dns/__main__.py).

The development shallowly embeds the two core components of the program:
the DNS zone-resolution engine (`ValidationResolver.resolve`) and the
authenticated HTTP control handler (`VerificationEndpoints.do_POST`),
together with the pieces of external library behaviour the code relies on
(dnslib label matching, Python base64/UTF-8/JSON decoding, fnmatch globs,
hmac.compare_digest), modelled at their documented interfaces.

Python strings are modelled as Lean `String`, byte strings as `List Nat`,
Python dicts as association lists, and Python exceptions as explicit
`Except`/`PyExc` values so that uncaught exceptions are visible outcomes.
-/

namespace AcmeDns

/-- Model of ASCII lower-casing of one character, as performed by
`bytes.lower()` / `str.lower()` on the ASCII names this server handles. -/
def lowerChar (c : Char) : Char :=
  if 65 ≤ c.toNat ∧ c.toNat ≤ 90 then Char.ofNat (c.toNat + 32) else c

/-- Model of Python `str.lower()` on ASCII strings. -/
def pyLower (s : String) : String :=
  String.mk (s.data.map lowerChar)

/-- Split a character list on every occurrence of `sep`, keeping empty
pieces: the behaviour of Python `str.split(sep)` with an explicit
one-character separator. -/
def splitOnChar (sep : Char) : List Char → List (List Char)
  | [] => [[]]
  | c :: cs =>
    match splitOnChar sep cs with
    | [] => [[]]
    | g :: gs => if c = sep then [] :: g :: gs else (c :: g) :: gs

/-- Python `s.split(sep)` for a one-character separator `sep`. -/
def pySplit (s : String) (sep : Char) : List String :=
  (splitOnChar sep s.data).map String.mk

/-- Strip all trailing dot characters. -/
def rstripDot (l : List Char) : List Char :=
  (l.reverse.dropWhile (fun c => c = '.')).reverse

/-- Interface model of `dnslib.DNSLabel(s)` for a textual ASCII name:
the name is split into its dot-separated labels, a trailing root dot
being stripped, and the empty name or `.` denoting the root (no labels). -/
def labelsOf (s : String) : List String :=
  let t := rstripDot s.data
  if t = [] then [] else (splitOnChar '.' t).map String.mk

/-- Join labels with dots. -/
def joinDots : List (List Char) → List Char
  | [] => []
  | [l] => l
  | l :: ls => l ++ '.' :: joinDots ls

/-- Character-level body of `str(DNSLabel)`: the labels joined by dots,
followed by the trailing root dot. -/
def strLabelChars (q : List (List Char)) : List Char :=
  joinDots q ++ ['.']

/-- Interface model of `str(qname)` on a dnslib label: dotted form with a
trailing root dot. -/
def strLabel (q : List String) : String :=
  String.mk (strLabelChars (q.map String.data))

/-- Interface model of `dnslib.DNSLabel.__eq__`: labels compared
case-insensitively. -/
def labelEq (a b : List String) : Bool :=
  a.map pyLower == b.map pyLower

/-- Interface model of `dnslib.DNSLabel.matchSuffix`: the last
`suffix.length` labels of the name must equal the suffix
(case-insensitively); mirrors the Python slice `label[-len(suffix):]`,
which for an empty suffix compares the whole name against the root. -/
def matchSuffix (q s : List String) : Bool :=
  if s.length = 0 then q.length = 0
  else labelEq (q.drop (q.length - s.length)) s

/-- JSON values as produced by `json.loads` (numbers kept as their source
literals, which the handler never inspects). -/
inductive Json where
  | null : Json
  | bool (b : Bool) : Json
  | num (lit : String) : Json
  | str (s : String) : Json
  | arr (xs : List Json) : Json
  | obj (kvs : List (String × Json)) : Json

/-- Python exceptions that can escape or be caught in the handler. -/
inductive PyExc where
  | keyError : PyExc
  | typeError : PyExc
  | valueError : PyExc
  | binasciiError : PyExc
  | unicodeDecodeError : PyExc
  | jsonDecodeError : PyExc
deriving DecidableEq, Repr

/-- The validation store: the Python dict `ValidationResolver.validations`,
mapping the verbatim fqdn string supplied by a `/present` request to the
stored TXT value (a JSON value, since the handler performs no type check). -/
abbrev Store := List (String × Json)

/-- Python `d[k]` read on a dict modelled as an association list (a dict
holds at most one binding per key; the first is the binding). -/
def dictGet : Store → String → Option Json
  | [], _ => none
  | p :: t, k => if p.1 == k then some p.2 else dictGet t k

/-- Python `d[k] = v`: overwrite the existing binding in place, else
append a new one. -/
def dictInsert : Store → String → Json → Store
  | [], k, v => [(k, v)]
  | p :: t, k, v => if p.1 == k then (k, v) :: t else p :: dictInsert t k v

/-- Python `del d[k]`: drop the binding of `k`. -/
def dictRemove : Store → String → Store
  | [], _ => []
  | p :: t, k => if p.1 == k then dictRemove t k else p :: dictRemove t k

/-- Python `k in d`. -/
def dictMem : Store → String → Bool
  | [], _ => false
  | p :: t, k => p.1 == k || dictMem t k

/-- Resource-record payloads used by the resolver. -/
inductive RData where
  | ns (target : String) : RData
  | soa (mname rname : String)
      (serial refresh retry expire minimum : Nat) : RData
  | txt (s : String) : RData
deriving DecidableEq, Repr

/-- A resource record as the resolver constructs it with `dnslib.RR`. -/
structure RR where
  owner : List String
  rtype : String
  ttl : Nat
  rdata : RData
deriving DecidableEq, Repr

/-- DNS response codes the resolver emits. -/
inductive RCODE where
  | NOERROR : RCODE
  | NXDOMAIN : RCODE
  | NOTZONE : RCODE
deriving DecidableEq, Repr

/-- A DNS reply descriptor: response code, answer section, authority
section. -/
structure Reply where
  rcode : RCODE
  answers : List RR
  auth : List RR
deriving DecidableEq, Repr

/-- Per-key configuration under `[api_keys.<name>]` in the TOML file:
the optional `key` secret and the optional `domains` glob allow-list. -/
structure KeyConfig where
  secretKey : Option String
  domains : Option (List String)
deriving DecidableEq, Repr

/-- The TOML configuration, reloaded on every request and every query. -/
structure Config where
  domain : String
  nameserver : String
  admin_email : String
  api_keys : Option (List (String × KeyConfig))
deriving DecidableEq, Repr

/-- The SOA record the resolver fabricates (mname = nameserver,
rname = admin_email, times = (zone serial, 3600, 3600, 3600, 3600)). -/
def soaRR (cfg : Config) (serial : Nat) : RR :=
  ⟨labelsOf cfg.domain, "SOA", 60,
    .soa cfg.nameserver cfg.admin_email serial 3600 3600 3600 3600⟩

/-- The NS record the resolver fabricates. -/
def nsRR (cfg : Config) : RR :=
  ⟨labelsOf cfg.domain, "NS", 60, .ns cfg.nameserver⟩

/-- Embedding of `ValidationResolver.resolve`.  The query name is the list
of labels from the wire; `serial` is the process-lifetime `zone_id`
module constant; `validations` is the shared store.  A `.error` result is
an exception escaping `resolve` (the `KeyError` of the
`self.validations[str(qname).lower()]` access, or the `TypeError` raised
by `dnslib.TXT` on a non-string stored value). -/
def resolve (cfg : Config) (serial : Nat) (validations : Store)
    (qname : List String) (qtype : String) : Except PyExc Reply :=
  if ¬ matchSuffix qname (labelsOf cfg.domain) then
    .ok ⟨.NOTZONE, [], []⟩
  else if labelEq qname (labelsOf cfg.domain) then
    if qtype = "SOA" then
      .ok ⟨.NOERROR, [soaRR cfg serial], [nsRR cfg]⟩
    else if qtype = "NS" then
      .ok ⟨.NOERROR, [nsRR cfg], [soaRR cfg serial]⟩
    else
      .ok ⟨.NOERROR, [], [nsRR cfg]⟩
  else
    if validations.any (fun kv => labelEq qname (labelsOf kv.1)) then
      if qtype = "TXT" then
        match dictGet validations (pyLower (strLabel qname)) with
        | none => .error .keyError
        | some (.str v) =>
          .ok ⟨.NOERROR, [⟨qname, "TXT", 1, .txt v⟩], [soaRR cfg serial]⟩
        | some _ => .error .typeError
      else
        .ok ⟨.NOERROR, [], [soaRR cfg serial]⟩
    else
      .ok ⟨.NXDOMAIN, [], [soaRR cfg serial]⟩

/-- Six-bit value of a base64 alphabet character (`=` and foreign
characters excluded). -/
def b64Digit (c : Char) : Option Nat :=
  if 65 ≤ c.toNat ∧ c.toNat ≤ 90 then some (c.toNat - 65)
  else if 97 ≤ c.toNat ∧ c.toNat ≤ 122 then some (c.toNat - 97 + 26)
  else if 48 ≤ c.toNat ∧ c.toNat ≤ 57 then some (c.toNat - 48 + 52)
  else if c = '+' then some 62
  else if c = '/' then some 63
  else none

/-- Core loop of CPython `binascii.a2b_base64` in its default non-strict
mode: foreign characters are skipped, `=` finishes the data once a quad
holds at least two data characters and enough padding, and a dangling
quad at the end raises `binascii.Error` (one more data character than a
multiple of four, or incorrect padding). -/
def a2bBase64 : List Char → Nat → Nat → Nat → Except PyExc (List Nat)
  | [], quadPos, _, _ =>
    if quadPos = 0 then .ok [] else .error .binasciiError
  | c :: rest, quadPos, leftchar, pads =>
    if c = '=' then
      if 2 ≤ quadPos then
        if 4 ≤ quadPos + (pads + 1) then .ok []
        else a2bBase64 rest quadPos leftchar (pads + 1)
      else a2bBase64 rest quadPos leftchar pads
    else
      match b64Digit c with
      | none => a2bBase64 rest quadPos leftchar pads
      | some v =>
        match quadPos with
        | 0 => a2bBase64 rest 1 v 0
        | 1 =>
          (a2bBase64 rest 2 (v % 16) 0).map
            (fun bs => (leftchar * 4 + v / 16) :: bs)
        | 2 =>
          (a2bBase64 rest 3 (v % 4) 0).map
            (fun bs => (leftchar * 16 + v / 4) :: bs)
        | _ =>
          (a2bBase64 rest 0 0 0).map
            (fun bs => (leftchar * 64 + v) :: bs)

/-- Model of `base64.b64decode` on a `str` argument: the string must be
ASCII (else `ValueError` from the implicit ASCII encoding), then the
binascii loop runs. -/
def b64decodePy (s : String) : Except PyExc (List Nat) :=
  if s.data.any (fun c => 128 ≤ c.toNat) then .error .valueError
  else a2bBase64 s.data 0 0 0

/-- UTF-8 encoding of one code point (as `str.encode()` produces). -/
def utf8EncodeChar (n : Nat) : List Nat :=
  if n < 128 then [n]
  else if n < 2048 then [192 + n / 64, 128 + n % 64]
  else if n < 65536 then
    [224 + n / 4096, 128 + n / 64 % 64, 128 + n % 64]
  else
    [240 + n / 262144, 128 + n / 4096 % 64, 128 + n / 64 % 64, 128 + n % 64]

/-- UTF-8 encoding of a string, the model of Python `str.encode()`. -/
def utf8Encode : List Char → List Nat
  | [] => []
  | c :: cs => utf8EncodeChar c.toNat ++ utf8Encode cs

/-- Whether a byte is a UTF-8 continuation byte. -/
def isCont (b : Nat) : Bool := 128 ≤ b ∧ b ≤ 191

/-- Strict UTF-8 decoding, the model of Python `bytes.decode()`:
rejects stray continuation bytes, overlong forms, surrogates and
out-of-range sequences, exactly as CPython's strict UTF-8 codec does. -/
def utf8Decode? : List Nat → Option (List Char)
  | [] => some []
  | b :: rest =>
    if b < 128 then
      (utf8Decode? rest).map (fun cs => Char.ofNat b :: cs)
    else if 194 ≤ b ∧ b ≤ 223 then
      match rest with
      | b2 :: r2 =>
        if isCont b2 then
          (utf8Decode? r2).map
            (fun cs => Char.ofNat ((b - 192) * 64 + (b2 - 128)) :: cs)
        else none
      | [] => none
    else if 224 ≤ b ∧ b ≤ 239 then
      match rest with
      | b2 :: b3 :: r3 =>
        let lo2 := if b = 224 then 160 else 128
        let hi2 := if b = 237 then 159 else 191
        if (lo2 ≤ b2 ∧ b2 ≤ hi2) ∧ isCont b3 then
          (utf8Decode? r3).map
            (fun cs =>
              Char.ofNat ((b - 224) * 4096 + (b2 - 128) * 64 + (b3 - 128)) :: cs)
        else none
      | _ => none
    else if 240 ≤ b ∧ b ≤ 244 then
      match rest with
      | b2 :: b3 :: b4 :: r4 =>
        let lo2 := if b = 240 then 144 else 128
        let hi2 := if b = 244 then 143 else 191
        if (lo2 ≤ b2 ∧ b2 ≤ hi2) ∧ isCont b3 ∧ isCont b4 then
          (utf8Decode? r4).map
            (fun cs =>
              Char.ofNat ((b - 240) * 262144 + (b2 - 128) * 4096 +
                (b3 - 128) * 64 + (b4 - 128)) :: cs)
        else none
      | _ => none
    else none

/-- One pass of the constant-time accumulator loop of
`hmac.compare_digest`: the pair `(accumulated difference, steps taken)`.
There is no early exit: every byte pair is visited. -/
def ctScan : List (Nat × Nat) → Nat → Nat × Nat
  | [], acc => (acc, 0)
  | p :: ps, acc =>
    let r := ctScan ps (acc ||| (p.1 ^^^ p.2))
    (r.1, r.2 + 1)

/-- Interface model of `hmac.compare_digest` on byte strings: equal when
the lengths match and the or-accumulated xor of all byte pairs is zero. -/
def compare_digest (a b : List Nat) : Bool :=
  a.length == b.length && (ctScan (a.zip b) 0).1 == 0

/-- Embedding of `secure_pass_compare` (lines 92-95): both passwords are
UTF-8 encoded and compared with `hmac.compare_digest`. -/
def secure_pass_compare (a b : String) : Bool :=
  compare_digest (utf8Encode a.data) (utf8Encode b.data)

/-- Whitespace stripped by Python `int(str)`. -/
def pyIntSpace (c : Char) : Bool :=
  c = ' ' ∨ c = '\t' ∨ c = '\n' ∨ c = '\r' ∨ c.toNat = 11 ∨ c.toNat = 12

/-- Digits with optional single underscores between them, as Python
`int()` accepts; returns the value. -/
def pyDigits : List Char → Option Nat → Option Nat
  | [], acc => acc
  | '_' :: c :: cs, some acc =>
    if c.isDigit then pyDigits cs (some (acc * 10 + (c.toNat - 48)))
    else none
  | c :: cs, acc =>
    if c.isDigit then
      pyDigits cs (some ((acc.getD 0) * 10 + (c.toNat - 48)))
    else none

/-- Model of Python `int(s)` on a string: optional surrounding
whitespace, optional sign, digits (with underscore separators); any
other shape raises `ValueError`. -/
def pyInt? (s : String) : Option Int :=
  let t := (s.data.dropWhile pyIntSpace).reverse.dropWhile pyIntSpace |>.reverse
  match t with
  | '-' :: ds => (pyDigits ds none).map (fun n => -(n : Int))
  | '+' :: ds => (pyDigits ds none).map (fun n => (n : Int))
  | ds => (pyDigits ds none).map (fun n => (n : Int))

/-- Python `file.read(n)` on the request body: at most `n` bytes, or the
whole rest of the stream when `n` is negative. -/
def pyRead (body : List Nat) (n : Int) : List Nat :=
  if n < 0 then body else body.take n.toNat

/-- One item of a glob character class: a literal character or a range. -/
inductive ClassItem where
  | lit (c : Char) : ClassItem
  | range (lo hi : Char) : ClassItem
deriving DecidableEq, Repr

/-- Parse the inside of a glob character class into items, ranges being
formed by an interior dash and a dash at either edge staying literal,
as `fnmatch.translate` produces. -/
def classItems : List Char → List ClassItem
  | [] => []
  | c :: '-' :: d :: rest => .range c d :: classItems rest
  | c :: rest => .lit c :: classItems rest

/-- Whether a character satisfies one class item. -/
def itemMatch (c : Char) : ClassItem → Bool
  | .lit d => c = d
  | .range lo hi => lo ≤ c ∧ c ≤ hi

/-- Split at the closing bracket of a character class. -/
def findClose : List Char → Option (List Char × List Char)
  | [] => none
  | ']' :: rest => some ([], rest)
  | c :: rest => (findClose rest).map (fun pr => (c :: pr.1, pr.2))

/-- Parse a character class after the opening bracket, as
`fnmatch.translate` scans it: a leading `!` negates, a bracket right
after that is literal content, and a class with no closing bracket does
not parse (the opening bracket is then a literal). -/
def parseClass (ps : List Char) : Option (Bool × List ClassItem × List Char) :=
  let neg : Bool := match ps with | '!' :: _ => true | _ => false
  let body := match ps with | '!' :: t => t | _ => ps
  match body with
  | ']' :: rest =>
    (findClose rest).map (fun pr => (neg, classItems (']' :: pr.1), pr.2))
  | _ =>
    (findClose body).map (fun pr => (neg, classItems pr.1, pr.2))

/-- Fuel-indexed glob matching: `*` matches any run, `?` any single
character, classes one character from the item set.  The fuel only
bounds recursion; `pattern.length + name.length + 1` always suffices. -/
def globAux : Nat → List Char → List Char → Bool
  | 0, _, _ => false
  | _ + 1, [], s => s.isEmpty
  | fuel + 1, '*' :: ps, s =>
    globAux fuel ps s ||
      (match s with
       | [] => false
       | _ :: s' => globAux fuel ('*' :: ps) s')
  | fuel + 1, '?' :: ps, s =>
    (match s with
     | [] => false
     | _ :: s' => globAux fuel ps s')
  | fuel + 1, '[' :: ps, s =>
    (match parseClass ps with
     | some (neg, items, rest) =>
       (match s with
        | [] => false
        | c :: s' => (items.any (itemMatch c) != neg) && globAux fuel rest s')
     | none =>
       (match s with
        | [] => false
        | c :: s' => c = '[' && globAux fuel ps s'))
  | fuel + 1, c :: ps, s =>
    (match s with
     | [] => false
     | d :: s' => c = d && globAux fuel ps s')

/-- Model of `fnmatch.fnmatch(name, pattern)` on POSIX (where
`os.path.normcase` is the identity): anchored glob matching of the whole
name. -/
def fnmatchPy (name pat : String) : Bool :=
  globAux (pat.data.length + name.data.length + 1) pat.data name.data

/-- JSON whitespace. -/
def jIsWs (c : Char) : Bool :=
  c = ' ' ∨ c = '\t' ∨ c = '\n' ∨ c = '\r'

/-- Skip JSON whitespace. -/
def jSkipWs (cs : List Char) : List Char :=
  cs.dropWhile jIsWs

/-- Value of a hex digit. -/
def jHex? (c : Char) : Option Nat :=
  if 48 ≤ c.toNat ∧ c.toNat ≤ 57 then some (c.toNat - 48)
  else if 97 ≤ c.toNat ∧ c.toNat ≤ 102 then some (c.toNat - 97 + 10)
  else if 65 ≤ c.toNat ∧ c.toNat ≤ 70 then some (c.toNat - 65 + 10)
  else none

/-- Four hex digits. -/
def jHex4? : List Char → Option (Nat × List Char)
  | h1 :: h2 :: h3 :: h4 :: r =>
    match jHex? h1, jHex? h2, jHex? h3, jHex? h4 with
    | some a, some b, some c, some d => some (((a * 16 + b) * 16 + c) * 16 + d, r)
    | _, _, _, _ => none
  | _ => none

/-- Body of a JSON string after its opening quote, with the strict-mode
escape rules of `json.loads` (raw control characters rejected, the eight
short escapes, `\uXXXX` with surrogate-pair combination). -/
def jStrChars : Nat → List Char → Option (List Char × List Char)
  | 0, _ => none
  | _ + 1, [] => none
  | fuel + 1, c :: rest =>
    if c = '"' then some ([], rest)
    else if c = '\\' then
      match rest with
      | '"' :: r => (jStrChars fuel r).map (fun pr => ('"' :: pr.1, pr.2))
      | '\\' :: r => (jStrChars fuel r).map (fun pr => ('\\' :: pr.1, pr.2))
      | '/' :: r => (jStrChars fuel r).map (fun pr => ('/' :: pr.1, pr.2))
      | 'b' :: r => (jStrChars fuel r).map (fun pr => (Char.ofNat 8 :: pr.1, pr.2))
      | 'f' :: r => (jStrChars fuel r).map (fun pr => (Char.ofNat 12 :: pr.1, pr.2))
      | 'n' :: r => (jStrChars fuel r).map (fun pr => ('\n' :: pr.1, pr.2))
      | 'r' :: r => (jStrChars fuel r).map (fun pr => ('\r' :: pr.1, pr.2))
      | 't' :: r => (jStrChars fuel r).map (fun pr => ('\t' :: pr.1, pr.2))
      | 'u' :: t =>
        match jHex4? t with
        | none => none
        | some (v, r) =>
          if 55296 ≤ v ∧ v ≤ 56319 then
            match r with
            | '\\' :: 'u' :: t2 =>
              match jHex4? t2 with
              | some (w, r2) =>
                if 56320 ≤ w ∧ w ≤ 57343 then
                  (jStrChars fuel r2).map (fun pr =>
                    (Char.ofNat (65536 + (v - 55296) * 1024 + (w - 56320)) :: pr.1,
                      pr.2))
                else
                  (jStrChars fuel r).map (fun pr => (Char.ofNat v :: pr.1, pr.2))
              | none =>
                (jStrChars fuel r).map (fun pr => (Char.ofNat v :: pr.1, pr.2))
            | _ =>
              (jStrChars fuel r).map (fun pr => (Char.ofNat v :: pr.1, pr.2))
          else
            (jStrChars fuel r).map (fun pr => (Char.ofNat v :: pr.1, pr.2))
      | _ => none
    else if c.toNat < 32 then none
    else (jStrChars fuel rest).map (fun pr => (c :: pr.1, pr.2))

/-- The digit run of a JSON number. -/
def jDigitSpan (cs : List Char) : List Char × List Char :=
  (cs.takeWhile Char.isDigit, cs.dropWhile Char.isDigit)

/-- Parse a JSON number literal (sign, integer part without leading
zeros, optional fraction and exponent), returning its source text. -/
def jNum? (cs : List Char) : Option (List Char × List Char) :=
  let sign : List Char := match cs with | '-' :: _ => ['-'] | _ => []
  let t := match cs with | '-' :: t => t | _ => cs
  let ip? : Option (List Char × List Char) :=
    match t with
    | '0' :: t2 => some (['0'], t2)
    | c :: _ =>
      if c.isDigit then some (jDigitSpan t) else none
    | [] => none
  match ip? with
  | none => none
  | some (ip, t2) =>
    let (frac, t3) :=
      match t2 with
      | '.' :: u =>
        let (ds, u2) := jDigitSpan u
        if ds = [] then (([] : List Char), t2) else ('.' :: ds, u2)
      | _ => ([], t2)
    let (ex, t4) :=
      match t3 with
      | e :: u =>
        if e = 'e' ∨ e = 'E' then
          let (sgn, u2) : List Char × List Char :=
            match u with
            | '+' :: u2 => (['+'], u2)
            | '-' :: u2 => (['-'], u2)
            | _ => ([], u)
          let (ds, u3) := jDigitSpan u2
          if ds = [] then (([] : List Char), t3) else (e :: (sgn ++ ds), u3)
        else ([], t3)
      | [] => ([], t3)
    some (sign ++ ip ++ frac ++ ex, t4)

mutual

/-- Fuel-indexed JSON value parsing, as `json.loads` accepts it
(including the Python extensions NaN, Infinity and negative Infinity). -/
def jVal : Nat → List Char → Option (Json × List Char)
  | 0, _ => none
  | fuel + 1, cs0 =>
    match jSkipWs cs0 with
    | [] => none
    | c :: rest =>
      if c = '"' then
        (jStrChars (fuel + 1) rest).map
          (fun pr => (Json.str (String.mk pr.1), pr.2))
      else if c = Char.ofNat 123 then
        match jSkipWs rest with
        | d :: r2 =>
          if d = Char.ofNat 125 then some (Json.obj [], r2)
          else jMembers fuel (jSkipWs rest) []
        | [] => none
      else if c = '[' then
        match jSkipWs rest with
        | d :: r2 =>
          if d = ']' then some (Json.arr [], r2)
          else jElems fuel (jSkipWs rest) []
        | [] => none
      else
        match c :: rest with
        | 't' :: 'r' :: 'u' :: 'e' :: r => some (Json.bool true, r)
        | 'f' :: 'a' :: 'l' :: 's' :: 'e' :: r => some (Json.bool false, r)
        | 'n' :: 'u' :: 'l' :: 'l' :: r => some (Json.null, r)
        | 'N' :: 'a' :: 'N' :: r => some (Json.num "NaN", r)
        | 'I' :: 'n' :: 'f' :: 'i' :: 'n' :: 'i' :: 't' :: 'y' :: r =>
          some (Json.num "Infinity", r)
        | '-' :: 'I' :: 'n' :: 'f' :: 'i' :: 'n' :: 'i' :: 't' :: 'y' :: r =>
          some (Json.num "-Infinity", r)
        | cs =>
          (jNum? cs).map (fun pr => (Json.num (String.mk pr.1), pr.2))

/-- Members of a JSON object after its opening brace (nonempty case). -/
def jMembers : Nat → List Char → List (String × Json) →
    Option (Json × List Char)
  | 0, _, _ => none
  | fuel + 1, cs, acc =>
    match jSkipWs cs with
    | '"' :: rest =>
      match jStrChars (fuel + 1) rest with
      | some (kcs, r2) =>
        match jSkipWs r2 with
        | ':' :: r3 =>
          match jVal fuel r3 with
          | some (v, r4) =>
            let acc2 := acc ++ [(String.mk kcs, v)]
            match jSkipWs r4 with
            | ',' :: r5 => jMembers fuel r5 acc2
            | d :: r5 =>
              if d = Char.ofNat 125 then some (Json.obj acc2, r5) else none
            | [] => none
          | none => none
        | _ => none
      | none => none
    | _ => none

/-- Elements of a JSON array after its opening bracket (nonempty case). -/
def jElems : Nat → List Char → List Json → Option (Json × List Char)
  | 0, _, _ => none
  | fuel + 1, cs, acc =>
    match jVal fuel cs with
    | some (v, r) =>
      let acc2 := acc ++ [v]
      match jSkipWs r with
      | ',' :: r2 => jElems fuel r2 acc2
      | ']' :: r2 => some (Json.arr acc2, r2)
      | _ => none
    | none => none

end

/-- Model of `json.loads` on a byte string: strict UTF-8 decoding (whose
failure is a `UnicodeDecodeError`, not caught by the handler), then one
JSON document with nothing but whitespace after it
(`json.JSONDecodeError` otherwise). -/
def jsonLoads (bs : List Nat) : Except PyExc Json :=
  match utf8Decode? bs with
  | none => .error .unicodeDecodeError
  | some cs =>
    match jVal (cs.length + 1) cs with
    | some (j, rest) =>
      if jSkipWs rest = [] then .ok j else .error .jsonDecodeError
    | none => .error .jsonDecodeError

/-- Lookup in a parsed JSON object, later duplicate keys shadowing
earlier ones as in the Python dict `json.loads` builds. -/
def jsonObjGet (kvs : List (String × Json)) (k : String) : Option Json :=
  kvs.foldl (fun acc kv => if kv.1 == k then some kv.2 else acc) none

/-- Python subscript `j[k]` on a decoded JSON document: a missing key on
an object raises `KeyError` (caught by the handler), any non-object
raises `TypeError` (not caught). -/
def jsonGetItem (j : Json) (k : String) : Except PyExc Json :=
  match j with
  | .obj kvs =>
    match jsonObjGet kvs k with
    | some v => .ok v
    | none => .error .keyError
  | _ => .error .typeError

/-- Lookup of an api key's configuration in the TOML credential table. -/
def lookupKey (l : List (String × KeyConfig)) (k : String) : Option KeyConfig :=
  (l.find? (fun p => p.1 == k)).map (fun p => p.2)

/-- What the handler emits for one request: either a sequence of HTTP
status lines written to the socket, or a Python exception escaping
`do_POST` (after which no response is written). -/
inductive Outcome where
  | sent (statuses : List Nat) : Outcome
  | uncaught (e : PyExc) : Outcome
deriving DecidableEq, Repr

/-- One inbound HTTP request as the handler sees it. -/
structure Request where
  path : String
  authorization : Option String
  contentLength : Option String
  rawBody : List Nat

/-- Embedding of `VerificationEndpoints.do_POST` (lines 103-181).
`attached` is whether `self.server.resolver` is set; `cfg` is the TOML
configuration loaded during the request; the result is the emitted
status lines (or escaped exception) together with the validation store
after the request. -/
def do_POST (cfg : Config) (req : Request) (attached : Bool)
    (store : Store) : Outcome × Store :=
  if ¬ attached then (.sent [500], store)
  else
    match req.authorization with
    | none => (.sent [401], store)
    | some auth =>
      match pySplit auth ' ' with
      | [scheme, tok] =>
        if scheme ≠ "Basic" then (.sent [401], store)
        else
          match b64decodePy tok with
          | .error e => (.uncaught e, store)
          | .ok bs =>
            match utf8Decode? bs with
            | none => (.uncaught .unicodeDecodeError, store)
            | some credChars =>
              match pySplit (String.mk credChars) ':' with
              | [api_key_name, api_key] =>
                match cfg.api_keys with
                | none => (.sent [401], store)
                | some keys =>
                  match lookupKey keys api_key_name with
                  | none => (.sent [401], store)
                  | some key_config =>
                    match key_config.secretKey with
                    | none => (.sent [401], store)
                    | some stored =>
                      if ¬ secure_pass_compare api_key stored then
                        (.sent [401], store)
                      else
                        match req.contentLength with
                        | none => (.uncaught .typeError, store)
                        | some clStr =>
                          match pyInt? clStr with
                          | none => (.uncaught .valueError, store)
                          | some content_len =>
                            match jsonLoads (pyRead req.rawBody content_len) with
                            | .error .jsonDecodeError => (.sent [400], store)
                            | .error e => (.uncaught e, store)
                            | .ok request_json =>
                              match jsonGetItem request_json "fqdn" with
                              | .error .keyError => (.sent [400], store)
                              | .error e => (.uncaught e, store)
                              | .ok fq =>
                                match jsonGetItem request_json "value" with
                                | .error .keyError => (.sent [400], store)
                                | .error e => (.uncaught e, store)
                                | .ok txt_value =>
                                  let domains := key_config.domains.getD []
                                  match fq with
                                  | .str requested_domain =>
                                    if ¬ domains.any
                                        (fun d => fnmatchPy requested_domain d) then
                                      (.sent [401], store)
                                    else if req.path = "/present" then
                                      (.sent [200],
                                        dictInsert store requested_domain txt_value)
                                    else if req.path = "/cleanup" then
                                      (.sent [200],
                                        if dictMem store requested_domain then
                                          dictRemove store requested_domain
                                        else store)
                                    else (.sent [404, 200], store)
                                  | _ =>
                                    if domains = [] then (.sent [401], store)
                                    else (.uncaught .typeError, store)
              | _ => (.sent [401], store)
      | _ => (.sent [401], store)

/-! ### Concrete fixtures used by witnesses and counterexamples -/

/-- UTF-8 bytes of a string, for building request bodies. -/
def strBytes (s : String) : List Nat := utf8Encode s.data

/-- A sample configuration: zone `example.com`, one api key `alice`
whose secret is `s3cr3t` and whose allow-list is `*.example.com`. -/
def cfgEx : Config :=
  { domain := "example.com", nameserver := "ns.example.com",
    admin_email := "admin.example.com",
    api_keys := some [("alice", ⟨some "s3cr3t", some ["*.example.com"]⟩)] }

/-- Like `cfgEx` but with an allow-list that also admits fully-qualified
names carrying the trailing root dot. -/
def cfgDot : Config :=
  { cfgEx with api_keys := some [("alice", ⟨some "s3cr3t", some ["*.example.com*"]⟩)] }

/-- The JSON body `json.dumps` a client would send. -/
def reqBody (f v : String) : String :=
  "\x7b\"fqdn\":\"" ++ f ++ "\",\"value\":\"" ++ v ++ "\"\x7d"

/-- A well-formed request for `alice` (whose Basic credential token is
the base64 of `alice:s3cr3t`). -/
def mkReq (path f v : String) : Request :=
  { path := path,
    authorization := some "Basic YWxpY2U6czNjcjN0",
    contentLength := some (toString (strBytes (reqBody f v)).length),
    rawBody := strBytes (reqBody f v) }

/-! ### Dictionary lemmas -/

theorem beqF {a b : String} (h : a ≠ b) : (a == b) = false := by
  cases hb : a == b
  · rfl
  · exact absurd (beq_iff_eq.mp hb) h

theorem bne_false {a b : String} (h : ¬ (a == b) = true) : (a == b) = false := by
  cases hb : a == b
  · rfl
  · exact absurd hb h

theorem dictGet_insert_self (st : Store) (k : String) (v : Json) :
    dictGet (dictInsert st k v) k = some v := by
  induction st with
  | nil => simp [dictInsert, dictGet]
  | cons p t ih =>
    by_cases hp : (p.1 == k) = true
    · simp [dictInsert, dictGet, hp]
    · simp [dictInsert, dictGet, bne_false hp, ih]

theorem dictGet_insert_ne (st : Store) (k : String) (v : Json)
    {k' : String} (h : k' ≠ k) :
    dictGet (dictInsert st k v) k' = dictGet st k' := by
  have hkk : (k == k') = false := beqF (fun e => h e.symm)
  induction st with
  | nil => simp [dictInsert, dictGet, hkk]
  | cons p t ih =>
    by_cases hp : (p.1 == k) = true
    · have hpk : p.1 = k := beq_iff_eq.mp hp
      simp [dictInsert, dictGet, hp, hkk, hpk]
    · by_cases hq : (p.1 == k') = true
      · simp [dictInsert, dictGet, bne_false hp, hq]
      · simp [dictInsert, dictGet, bne_false hp, bne_false hq, ih]

theorem dictGet_remove_ne (st : Store) (k : String)
    {k' : String} (h : k' ≠ k) :
    dictGet (dictRemove st k) k' = dictGet st k' := by
  induction st with
  | nil => rfl
  | cons p t ih =>
    by_cases hp : (p.1 == k) = true
    · have hq2 : (p.1 == k') = false := by
        refine beqF ?_
        intro e
        exact h (by rw [← e, beq_iff_eq.mp hp])
      simp [dictRemove, dictGet, hp, hq2, ih]
    · by_cases hq : (p.1 == k') = true
      · simp [dictRemove, dictGet, bne_false hp, hq]
      · simp [dictRemove, dictGet, bne_false hp, bne_false hq, ih]

/-! ### Zone boundary and apex behaviour -/

theorem labelEq_matchSuffix {q s : List String} (h : labelEq q s = true) :
    matchSuffix q s = true := by
  have hmap : q.map pyLower = s.map pyLower := by
    simpa [labelEq] using h
  have hlen : q.length = s.length := by
    have := congrArg List.length hmap
    simpa using this
  unfold matchSuffix
  by_cases hs : s.length = 0
  · simp [hs, hlen ▸ hs]
  · have : q.length - s.length = 0 := by omega
    simp [hs, this, labelEq, hmap]

/-- C2: a query name that is not a (case-insensitive label-)suffix of the
configured zone domain gets outcome NOTZONE with empty answer and
authority sections, whatever the query type and whatever the validation
store holds. -/
theorem claim_C2 (cfg : Config) (serial : Nat) (store : Store)
    (q : List String) (qtype : String)
    (h : matchSuffix q (labelsOf cfg.domain) = false) :
    resolve cfg serial store q qtype = .ok ⟨.NOTZONE, [], []⟩ := by
  simp [resolve, h]

/-- Witness for C2 at a concrete out-of-zone query. -/
theorem claim_C2_witness :
    matchSuffix ["x", "other", "com"] (labelsOf cfgEx.domain) = false ∧
    resolve cfgEx 1 [("x.example.com.", Json.str "v")] ["x", "other", "com"]
      "TXT" = .ok ⟨.NOTZONE, [], []⟩ :=
  ⟨by decide,
    claim_C2 cfgEx 1 [("x.example.com.", Json.str "v")] ["x", "other", "com"]
      "TXT" (by decide)⟩

/-- C3: at the zone apex, an SOA query is answered NOERROR with the SOA
record (mname the configured nameserver, rname the configured
admin_email, serial the process-lifetime zone serial — the resolver is
handed the same serial whatever the store contains — and
refresh/retry/expire/minimum all 3600) plus an NS record in the
authority section, and an NS query is answered with the mirror image,
for every validation store. -/
theorem claim_C3 (cfg : Config) (serial : Nat) (store : Store)
    (q : List String) (h : labelEq q (labelsOf cfg.domain) = true) :
    resolve cfg serial store q "SOA" =
      .ok ⟨.NOERROR, [soaRR cfg serial], [nsRR cfg]⟩ ∧
    resolve cfg serial store q "NS" =
      .ok ⟨.NOERROR, [nsRR cfg], [soaRR cfg serial]⟩ := by
  have hm := labelEq_matchSuffix h
  constructor <;> simp [resolve, hm, h]

/-- Witness for C3 at the apex of the sample zone, with a mixed-case
query and a nonempty store. -/
theorem claim_C3_witness :
    labelEq ["Example", "Com"] (labelsOf cfgEx.domain) = true ∧
    resolve cfgEx 5 [("x.example.com.", Json.str "v")] ["Example", "Com"]
        "SOA" = .ok ⟨.NOERROR, [soaRR cfgEx 5], [nsRR cfgEx]⟩ ∧
    resolve cfgEx 5 [("x.example.com.", Json.str "v")] ["Example", "Com"]
        "NS" = .ok ⟨.NOERROR, [nsRR cfgEx], [soaRR cfgEx 5]⟩ :=
  ⟨by decide,
    claim_C3 cfgEx 5 [("x.example.com.", Json.str "v")] ["Example", "Com"]
      (by decide)⟩

/-- C4: the validation store is mutated only by a request that reaches
the `/present` or `/cleanup` dispatch with the whole validation pipeline
passed (in which case the handler answers 200), and even then only the
single key named by the request's fqdn can change; every other request
leaves the store exactly as it was. -/
theorem claim_C4 (cfg : Config) (req : Request) (attached : Bool)
    (store : Store) :
    (do_POST cfg req attached store).2 = store ∨
    ((do_POST cfg req attached store).1 = .sent [200] ∧
      (req.path = "/present" ∨ req.path = "/cleanup") ∧
      ∃ f, ∀ k, k ≠ f →
        dictGet (do_POST cfg req attached store).2 k = dictGet store k) := by
  unfold do_POST
  repeat' split
  all_goals dsimp only
  repeat' split
  all_goals try exact Or.inl rfl
  all_goals first
    | exact Or.inr ⟨rfl, Or.inl (by assumption),
        _, fun k hk => dictGet_insert_ne store _ _ hk⟩
    | exact Or.inr ⟨rfl, Or.inr (by assumption),
        _, fun k hk => dictGet_remove_ne store _ hk⟩

/-- C8 (code bug): a fully authenticated and authorized request whose
path is neither `/present` nor `/cleanup` does reach the 404 branch, but
the handler then falls through the missing return and also emits a 200
status line: the emitted statuses are `[404, 200]`, not only 404. -/
theorem claim_C8 :
    do_POST cfgEx (mkReq "/other" "x.example.com" "v1") true
        [("old.example.com", Json.str "w")] =
      (.sent [404, 200], [("old.example.com", Json.str "w")]) := by
  rfl

/-- C5: for an authenticated request whose body decoded to string fields
`fqdn` and `value`, an fqdn matching no glob of the credential's
`domains` allow-list (so in particular any fqdn when the allow-list is
empty or absent) is answered 401 with the store untouched, while an fqdn
matching at least one glob passes authorization, the handler proceeding
to the path dispatch (a 200, or the 404-branch statuses). -/
theorem claim_C5 (cfg : Config) (req : Request) (store : Store)
    (auth tok : String) (bs : List Nat) (credChars : List Char)
    (name secret : String) (keys : List (String × KeyConfig))
    (kc : KeyConfig) (stored : String) (clStr : String) (cl : Int)
    (j : Json) (f : String) (v : Json)
    (hauth : req.authorization = some auth)
    (hsplit : pySplit auth ' ' = ["Basic", tok])
    (hb64 : b64decodePy tok = .ok bs)
    (hutf : utf8Decode? bs = some credChars)
    (hcred : pySplit (String.mk credChars) ':' = [name, secret])
    (hkeys : cfg.api_keys = some keys)
    (hlook : lookupKey keys name = some kc)
    (hkey : kc.secretKey = some stored)
    (hcmp : secure_pass_compare secret stored = true)
    (hcl : req.contentLength = some clStr)
    (hint : pyInt? clStr = some cl)
    (hjson : jsonLoads (pyRead req.rawBody cl) = .ok j)
    (hfq : jsonGetItem j "fqdn" = .ok (.str f))
    (hval : jsonGetItem j "value" = .ok v) :
    ((kc.domains.getD []).any (fun d => fnmatchPy f d) = false →
      do_POST cfg req true store = (.sent [401], store)) ∧
    ((kc.domains.getD []).any (fun d => fnmatchPy f d) = true →
      (do_POST cfg req true store).1 = .sent [200] ∨
      (do_POST cfg req true store).1 = .sent [404, 200]) := by
  constructor
  · intro hno
    simp [do_POST, hauth, hsplit, hb64, hutf, hcred, hkeys, hlook, hkey,
      hcmp, hcl, hint, hjson, hfq, hval, hno]
  · intro hyes
    by_cases hp : req.path = "/present"
    · left
      simp [do_POST, hauth, hsplit, hb64, hutf, hcred, hkeys, hlook, hkey,
        hcmp, hcl, hint, hjson, hfq, hval, hyes, hp]
    · by_cases hc : req.path = "/cleanup"
      · left
        simp [do_POST, hauth, hsplit, hb64, hutf, hcred, hkeys, hlook, hkey,
          hcmp, hcl, hint, hjson, hfq, hval, hyes, hp, hc]
      · right
        simp [do_POST, hauth, hsplit, hb64, hutf, hcred, hkeys, hlook, hkey,
          hcmp, hcl, hint, hjson, hfq, hval, hyes, hp, hc]

/-- Witness for C5: under `alice`'s allow-list `*.example.com`, a present
request for `x.other.com` is refused 401 with the store unchanged, and
one for `x.example.com` is accepted with 200. -/
theorem claim_C5_witness :
    do_POST cfgEx (mkReq "/present" "x.other.com" "v1") true [] =
      (.sent [401], []) ∧
    ((do_POST cfgEx (mkReq "/present" "x.example.com" "v1") true []).1 =
        .sent [200] ∨
      (do_POST cfgEx (mkReq "/present" "x.example.com" "v1") true []).1 =
        .sent [404, 200]) :=
  ⟨(claim_C5 cfgEx (mkReq "/present" "x.other.com" "v1") [] _ _
      (strBytes "alice:s3cr3t") ("alice:s3cr3t".data) "alice" "s3cr3t" _ _
      "s3cr3t" _ ((strBytes (reqBody "x.other.com" "v1")).length : Int)
      (Json.obj [("fqdn", Json.str "x.other.com"), ("value", Json.str "v1")])
      "x.other.com" (Json.str "v1")
      rfl rfl rfl rfl rfl rfl rfl rfl (by decide) rfl (by decide) rfl rfl
      rfl).1 (by decide),
    (claim_C5 cfgEx (mkReq "/present" "x.example.com" "v1") [] _ _
      (strBytes "alice:s3cr3t") ("alice:s3cr3t".data) "alice" "s3cr3t" _ _
      "s3cr3t" _ ((strBytes (reqBody "x.example.com" "v1")).length : Int)
      (Json.obj [("fqdn", Json.str "x.example.com"), ("value", Json.str "v1")])
      "x.example.com" (Json.str "v1")
      rfl rfl rfl rfl rfl rfl rfl rfl (by decide) rfl (by decide) rfl rfl
      rfl).2 (by decide)⟩

/-- C6 (amended): for a request with a well-formed `Basic` Authorization
header, a second token that is not decodable base64 makes the
`binascii`/`ValueError` exception escape the handler uncaught (no
response at all, not 401); bytes that decode as base64 but are not UTF-8
make a `UnicodeDecodeError` escape; only when both decodes succeed and
the credential does not split on `:` into exactly two fields does the
handler answer 401. -/
theorem claim_C6 (cfg : Config) (req : Request) (store : Store)
    (auth tok : String)
    (hauth : req.authorization = some auth)
    (hsplit : pySplit auth ' ' = ["Basic", tok]) :
    (∀ e, b64decodePy tok = .error e →
      do_POST cfg req true store = (.uncaught e, store)) ∧
    (∀ bs, b64decodePy tok = .ok bs → utf8Decode? bs = none →
      do_POST cfg req true store = (.uncaught .unicodeDecodeError, store)) ∧
    (∀ bs credChars, b64decodePy tok = .ok bs →
      utf8Decode? bs = some credChars →
      (pySplit (String.mk credChars) ':').length ≠ 2 →
      do_POST cfg req true store = (.sent [401], store)) := by
  refine ⟨?_, ?_, ?_⟩
  · intro e he
    simp [do_POST, hauth, hsplit, he]
  · intro bs hb hu
    simp [do_POST, hauth, hsplit, hb, hu]
  · intro bs cc hb hu hlen
    rcases hl : pySplit (String.mk cc) ':' with _ | ⟨a, _ | ⟨b, _ | ⟨c, t⟩⟩⟩
    · simp [do_POST, hauth, hsplit, hb, hu, hl]
    · simp [do_POST, hauth, hsplit, hb, hu, hl]
    · rw [hl] at hlen
      simp at hlen
    · simp [do_POST, hauth, hsplit, hb, hu, hl]

/-- Witness for C6 at a credential token that decodes to `alice` with no
colon: one field, hence 401 with the store unchanged. -/
theorem claim_C6_witness :
    do_POST cfgEx
        { path := "/present", authorization := some "Basic YWxpY2U=",
          contentLength := some "2", rawBody := strBytes "42" } true [] =
      (.sent [401], []) :=
  (claim_C6 cfgEx
    { path := "/present", authorization := some "Basic YWxpY2U=",
      contentLength := some "2", rawBody := strBytes "42" } [] _
    "YWxpY2U=" rfl rfl).2.2 (strBytes "alice") ("alice".data) rfl rfl
    (by decide)

/-- Counterexample to C6 as stated: the token `a` is invalid base64
(one data character more than a multiple of four), and the handler does
not answer 401 — the `binascii.Error` escapes uncaught. -/
theorem claim_C6_cex :
    do_POST cfgEx
        { path := "/present", authorization := some "Basic a",
          contentLength := some "2", rawBody := strBytes "42" } true [] =
      (.uncaught .binasciiError, []) ∧
    Outcome.uncaught .binasciiError ≠ Outcome.sent [401] := by
  exact ⟨rfl, by decide⟩

/-- C7 (amended): for an authenticated request, the handler reads
`Content-Length` bytes of the body and parses them as JSON; invalid
JSON is answered 400, as is a JSON object lacking the `fqdn` or the
`value` key — but a missing `Content-Length` header makes `int(None)`
raise an uncaught `TypeError`, a malformed one makes `int()` raise an
uncaught `ValueError`, and in all those cases the store is unchanged. -/
theorem claim_C7 (cfg : Config) (req : Request) (store : Store)
    (auth tok : String) (bs : List Nat) (credChars : List Char)
    (name secret : String) (keys : List (String × KeyConfig))
    (kc : KeyConfig) (stored : String)
    (hauth : req.authorization = some auth)
    (hsplit : pySplit auth ' ' = ["Basic", tok])
    (hb64 : b64decodePy tok = .ok bs)
    (hutf : utf8Decode? bs = some credChars)
    (hcred : pySplit (String.mk credChars) ':' = [name, secret])
    (hkeys : cfg.api_keys = some keys)
    (hlook : lookupKey keys name = some kc)
    (hkey : kc.secretKey = some stored)
    (hcmp : secure_pass_compare secret stored = true) :
    (req.contentLength = none →
      do_POST cfg req true store = (.uncaught .typeError, store)) ∧
    (∀ clStr, req.contentLength = some clStr → pyInt? clStr = none →
      do_POST cfg req true store = (.uncaught .valueError, store)) ∧
    (∀ clStr cl, req.contentLength = some clStr → pyInt? clStr = some cl →
      jsonLoads (pyRead req.rawBody cl) = .error .jsonDecodeError →
      do_POST cfg req true store = (.sent [400], store)) ∧
    (∀ clStr cl j, req.contentLength = some clStr → pyInt? clStr = some cl →
      jsonLoads (pyRead req.rawBody cl) = .ok j →
      jsonGetItem j "fqdn" = .error .keyError →
      do_POST cfg req true store = (.sent [400], store)) ∧
    (∀ clStr cl j fq, req.contentLength = some clStr →
      pyInt? clStr = some cl →
      jsonLoads (pyRead req.rawBody cl) = .ok j →
      jsonGetItem j "fqdn" = .ok fq →
      jsonGetItem j "value" = .error .keyError →
      do_POST cfg req true store = (.sent [400], store)) := by
  refine ⟨?_, ?_, ?_, ?_, ?_⟩
  · intro hcl
    simp [do_POST, hauth, hsplit, hb64, hutf, hcred, hkeys, hlook, hkey,
      hcmp, hcl]
  · intro clStr hcl hint
    simp [do_POST, hauth, hsplit, hb64, hutf, hcred, hkeys, hlook, hkey,
      hcmp, hcl, hint]
  · intro clStr cl hcl hint hjson
    simp [do_POST, hauth, hsplit, hb64, hutf, hcred, hkeys, hlook, hkey,
      hcmp, hcl, hint, hjson]
  · intro clStr cl j hcl hint hjson hfq
    simp [do_POST, hauth, hsplit, hb64, hutf, hcred, hkeys, hlook, hkey,
      hcmp, hcl, hint, hjson, hfq]
  · intro clStr cl j fq hcl hint hjson hfq hval
    simp [do_POST, hauth, hsplit, hb64, hutf, hcred, hkeys, hlook, hkey,
      hcmp, hcl, hint, hjson, hfq, hval]

/-- Witness for C7: an authenticated request whose body is not JSON is
answered 400 with the store unchanged. -/
theorem claim_C7_witness :
    do_POST cfgEx
        { path := "/present", authorization := some "Basic YWxpY2U6czNjcjN0",
          contentLength := some "7", rawBody := strBytes "notjson" } true [] =
      (.sent [400], []) :=
  (claim_C7 cfgEx
    { path := "/present", authorization := some "Basic YWxpY2U6czNjcjN0",
      contentLength := some "7", rawBody := strBytes "notjson" } [] _ _
    (strBytes "alice:s3cr3t") ("alice:s3cr3t".data) "alice" "s3cr3t" _ _
    "s3cr3t" rfl rfl rfl rfl rfl rfl rfl rfl
    (by decide)).2.2.1 "7" 7 rfl (by decide) rfl

/-- Counterexample to C7 as stated: an authenticated request with no
`Content-Length` header is not answered 400 — the `TypeError` from
`int(None)` escapes the handler uncaught. -/
theorem claim_C7_cex :
    do_POST cfgEx
        { path := "/present", authorization := some "Basic YWxpY2U6czNjcjN0",
          contentLength := none, rawBody := strBytes "42" } true [] =
      (.uncaught .typeError, []) ∧
    Outcome.uncaught .typeError ≠ Outcome.sent [400] := by
  exact ⟨rfl, by decide⟩

/-! ### Constant-time comparison: correctness and trace shape -/

theorem or_eq_zero (a b : Nat) : (a ||| b) = 0 ↔ a = 0 ∧ b = 0 := by
  constructor
  · intro h
    have hx : ∀ i, (a.testBit i || b.testBit i) = false := by
      intro i
      have := congrArg (fun n => Nat.testBit n i) h
      simpa [Nat.testBit_or] using this
    constructor
    · apply Nat.eq_of_testBit_eq
      intro i
      simp [Nat.zero_testBit, (Bool.or_eq_false_iff.mp (hx i)).1]
    · apply Nat.eq_of_testBit_eq
      intro i
      simp [Nat.zero_testBit, (Bool.or_eq_false_iff.mp (hx i)).2]
  · rintro ⟨rfl, rfl⟩
    rfl

theorem ctScan_steps (ps : List (Nat × Nat)) (acc : Nat) :
    (ctScan ps acc).2 = ps.length := by
  induction ps generalizing acc with
  | nil => rfl
  | cons p t ih => simp [ctScan, ih]

theorem ctScan_acc (ps : List (Nat × Nat)) (acc : Nat) :
    (ctScan ps acc).1 = 0 ↔ acc = 0 ∧ ∀ p ∈ ps, p.1 = p.2 := by
  induction ps generalizing acc with
  | nil => simp [ctScan]
  | cons p t ih =>
    simp [ctScan, ih, or_eq_zero, Nat.xor_eq_zero, and_assoc]

theorem zip_all_eq (a : List Nat) : ∀ (b : List Nat),
    a.length = b.length → ((∀ p ∈ a.zip b, p.1 = p.2) ↔ a = b) := by
  induction a with
  | nil =>
    intro b h
    cases b
    · simp
    · simp at h
  | cons x t ih =>
    intro b h
    cases b with
    | nil => simp at h
    | cons y s =>
      have hlen : t.length = s.length := by simpa using h
      rw [List.zip_cons_cons]
      constructor
      · intro hall
        have hx : x = y := hall (x, y) (List.mem_cons_self _ _)
        have ht : t = s :=
          (ih s hlen).mp (fun p hp => hall p (List.mem_cons_of_mem _ hp))
        rw [hx, ht]
      · intro he p hp
        rw [List.cons.injEq] at he
        rcases List.mem_cons.mp hp with hp | hp
        · rw [hp]
          exact he.1
        · exact (ih s hlen).mpr he.2 p hp

theorem compare_digest_iff (a b : List Nat) :
    compare_digest a b = true ↔ a = b := by
  unfold compare_digest
  rw [Bool.and_eq_true, beq_iff_eq, beq_iff_eq]
  constructor
  · rintro ⟨hlen, hacc⟩
    exact (zip_all_eq a b hlen).mp ((ctScan_acc _ _).mp hacc).2
  · rintro rfl
    exact ⟨rfl, (ctScan_acc _ _).mpr ⟨rfl, (zip_all_eq a a rfl).mpr rfl⟩⟩

/-! ### UTF-8 encoding is injective -/

theorem char_toNat_lt (c : Char) : c.toNat < 1114112 := by
  have h := c.valid
  unfold UInt32.isValidChar at h
  unfold Nat.isValidChar at h
  rcases h with h | ⟨h1, h2⟩ <;> simp [Char.toNat] <;> omega

theorem char_toNat_inj {a b : Char} (h : a.toNat = b.toNat) : a = b := by
  rw [← Char.ofNat_toNat a, ← Char.ofNat_toNat b, h]

theorem utf8EncodeChar_append_inj {a b : Nat} (ha : a < 1114112)
    (hb : b < 1114112) {xs ys : List Nat}
    (h : utf8EncodeChar a ++ xs = utf8EncodeChar b ++ ys) :
    a = b ∧ xs = ys := by
  unfold utf8EncodeChar at h
  split_ifs at h <;>
    simp only [List.cons_append, List.nil_append, List.cons.injEq] at h
  all_goals obtain ⟨e1, h2⟩ := h
  all_goals try (exfalso; omega)
  all_goals first
    | exact ⟨by omega, h2⟩
    | (obtain ⟨e2, h3⟩ := h2
       first
         | exact ⟨by omega, h3⟩
         | (obtain ⟨e3, h4⟩ := h3
            first
              | exact ⟨by omega, h4⟩
              | (obtain ⟨e4, h5⟩ := h4
                 exact ⟨by omega, h5⟩)))

theorem utf8Encode_inj (l1 : List Char) : ∀ (l2 : List Char),
    utf8Encode l1 = utf8Encode l2 → l1 = l2 := by
  induction l1 with
  | nil =>
    intro l2 h
    cases l2 with
    | nil => rfl
    | cons c t =>
      exfalso
      have : utf8EncodeChar c.toNat ≠ [] := by
        unfold utf8EncodeChar
        split_ifs <;> simp
      cases he : utf8EncodeChar c.toNat with
      | nil => exact this he
      | cons x r =>
        rw [utf8Encode, utf8Encode, he] at h
        simp at h
  | cons c t ih =>
    intro l2 h
    cases l2 with
    | nil =>
      exfalso
      have : utf8EncodeChar c.toNat ≠ [] := by
        unfold utf8EncodeChar
        split_ifs <;> simp
      cases he : utf8EncodeChar c.toNat with
      | nil => exact this he
      | cons x r =>
        rw [utf8Encode, utf8Encode, he] at h
        simp at h
    | cons d s =>
      rw [utf8Encode, utf8Encode] at h
      obtain ⟨e, ht⟩ :=
        utf8EncodeChar_append_inj (char_toNat_lt c) (char_toNat_lt d) h
      rw [char_toNat_inj e, ih s ht]

theorem secure_pass_compare_iff (a b : String) :
    secure_pass_compare a b = true ↔ a = b := by
  unfold secure_pass_compare
  rw [compare_digest_iff]
  constructor
  · intro h
    have := utf8Encode_inj a.data b.data h
    cases a
    cases b
    exact congrArg String.mk this
  · rintro rfl
    rfl

/-- C9: the secret check of the control handler uses the constant-time
comparison `secure_pass_compare`: (i) the primitive accepts exactly when
the two secrets are equal, so the accept/reject decision is a
deterministic function of the two secrets; (ii) the byte scan underlying
it takes a number of steps depending only on the lengths of the two
encoded secrets, never on where they first differ (no early exit); and
(iii) on any request reaching the secret comparison, a mismatch is
answered 401 with the store unchanged. -/
theorem claim_C9 (cfg : Config) (req : Request) (store : Store)
    (auth tok : String) (bs : List Nat) (credChars : List Char)
    (name secret : String) (keys : List (String × KeyConfig))
    (kc : KeyConfig) (stored : String)
    (hauth : req.authorization = some auth)
    (hsplit : pySplit auth ' ' = ["Basic", tok])
    (hb64 : b64decodePy tok = .ok bs)
    (hutf : utf8Decode? bs = some credChars)
    (hcred : pySplit (String.mk credChars) ':' = [name, secret])
    (hkeys : cfg.api_keys = some keys)
    (hlook : lookupKey keys name = some kc)
    (hkey : kc.secretKey = some stored) :
    (∀ a b : String, secure_pass_compare a b = true ↔ a = b) ∧
    (∀ a b a' b' : List Nat, a.length = a'.length → b.length = b'.length →
      (ctScan (a.zip b) 0).2 = (ctScan (a'.zip b') 0).2) ∧
    (secure_pass_compare secret stored = false →
      do_POST cfg req true store = (.sent [401], store)) := by
  refine ⟨secure_pass_compare_iff, ?_, ?_⟩
  · intro a b a' b' h1 h2
    rw [ctScan_steps, ctScan_steps, List.length_zip, List.length_zip, h1, h2]
  · intro hcmp
    simp [do_POST, hauth, hsplit, hb64, hutf, hcred, hkeys, hlook, hkey, hcmp]

/-- Witness for C9: the request presenting `alice:wrong` is rejected 401
(the token is the base64 of that credential). -/
theorem claim_C9_witness :
    do_POST cfgEx
        { path := "/present", authorization := some "Basic YWxpY2U6d3Jvbmc=",
          contentLength := some "2", rawBody := strBytes "42" } true [] =
      (.sent [401], []) :=
  (claim_C9 cfgEx
    { path := "/present", authorization := some "Basic YWxpY2U6d3Jvbmc=",
      contentLength := some "2", rawBody := strBytes "42" } [] _
    "YWxpY2U6d3Jvbmc=" (strBytes "alice:wrong") ("alice:wrong".data)
    "alice" "wrong" _ _ "s3cr3t"
    rfl rfl rfl rfl rfl rfl rfl rfl).2.2 (by decide)

/-! ### Label arithmetic: lowering, joining and splitting dotted names -/

theorem lowerChar_dot : lowerChar '.' = '.' := by decide

theorem map_lower_joinDots (L : List (List Char)) :
    (joinDots L).map lowerChar = joinDots (L.map (List.map lowerChar)) := by
  induction L with
  | nil => rfl
  | cons l t ih =>
    cases t with
    | nil => rfl
    | cons l2 t2 =>
      have h1 : joinDots (l :: l2 :: t2) = l ++ '.' :: joinDots (l2 :: t2) := rfl
      have h2 : joinDots ((l :: l2 :: t2).map (List.map lowerChar)) =
          l.map lowerChar ++ '.' :: joinDots ((l2 :: t2).map (List.map lowerChar)) :=
        rfl
      rw [h1, h2, List.map_append, List.map_cons, lowerChar_dot, ih]

theorem pyLower_strLabel (q : List String) :
    pyLower (strLabel q) = strLabel (q.map pyLower) := by
  unfold pyLower strLabel strLabelChars
  apply congrArg String.mk
  rw [List.map_append, map_lower_joinDots, List.map_map, List.map_map]
  rfl

theorem splitOnChar_ne_nil (sep : Char) (l : List Char) :
    splitOnChar sep l ≠ [] := by
  cases l with
  | nil => simp [splitOnChar]
  | cons c t =>
    rw [splitOnChar]
    cases hsp : splitOnChar sep t with
    | nil => simp
    | cons g gs =>
      by_cases hc : c = sep <;> simp [hc]

theorem splitOnChar_no_sep (sep : Char) (l : List Char) (h : sep ∉ l) :
    splitOnChar sep l = [l] := by
  induction l with
  | nil => rfl
  | cons c t ih =>
    have hc : ¬ c = sep := fun e => h (e ▸ List.mem_cons_self c t)
    rw [splitOnChar, ih (fun hm => h (List.mem_cons_of_mem _ hm))]
    simp [hc]

theorem splitOnChar_append (sep : Char) (l rest : List Char) (h : sep ∉ l) :
    splitOnChar sep (l ++ sep :: rest) = l :: splitOnChar sep rest := by
  induction l with
  | nil =>
    obtain ⟨g, gs, hg⟩ : ∃ g gs, splitOnChar sep rest = g :: gs := by
      cases hsp : splitOnChar sep rest with
      | nil => exact absurd hsp (splitOnChar_ne_nil sep rest)
      | cons g gs => exact ⟨g, gs, rfl⟩
    simp [splitOnChar, hg]
  | cons c t ih =>
    have hc : ¬ c = sep := fun e => h (e ▸ List.mem_cons_self c t)
    have iht := ih (fun hm => h (List.mem_cons_of_mem _ hm))
    simp only [List.cons_append, splitOnChar, List.append_eq]
    rw [iht]
    simp [hc]

theorem joinDots_concat (L : List (List Char)) (hne : L ≠ [])
    (hcl : ∀ l ∈ L, l ≠ [] ∧ '.' ∉ l) :
    ∃ zs c, joinDots L = zs ++ [c] ∧ ¬ c = '.' := by
  induction L with
  | nil => exact absurd rfl hne
  | cons l t ih =>
    cases t with
    | nil =>
      obtain ⟨hl, hnd⟩ := hcl l (List.mem_cons_self _ _)
      rcases List.eq_nil_or_concat l with h | ⟨zs, c, hzc⟩
      · exact absurd h hl
      · refine ⟨zs, c, by simp [joinDots, hzc], fun e => hnd ?_⟩
        rw [hzc, e]
        simp
    | cons l2 t2 =>
      obtain ⟨zs, c, hj, hc⟩ :=
        ih (by simp) (fun x hx => hcl x (List.mem_cons_of_mem _ hx))
      exact ⟨l ++ '.' :: zs, c, by simp [joinDots, hj], hc⟩

theorem splitOnChar_joinDots (L : List (List Char)) (hne : L ≠ [])
    (hcl : ∀ l ∈ L, l ≠ [] ∧ '.' ∉ l) :
    splitOnChar '.' (joinDots L) = L := by
  induction L with
  | nil => exact absurd rfl hne
  | cons l t ih =>
    cases t with
    | nil =>
      exact splitOnChar_no_sep '.' l (hcl l (List.mem_cons_self _ _)).2
    | cons l2 t2 =>
      have step : joinDots (l :: l2 :: t2) = l ++ '.' :: joinDots (l2 :: t2) :=
        rfl
      rw [step,
        splitOnChar_append '.' l _ (hcl l (List.mem_cons_self _ _)).2,
        ih (by simp) (fun x hx => hcl x (List.mem_cons_of_mem _ hx))]

theorem rstrip_append_dot (xs : List Char) :
    rstripDot (xs ++ ['.']) = rstripDot xs := by
  simp [rstripDot, List.reverse_append, List.dropWhile_cons]

theorem rstrip_concat_ne (xs : List Char) (c : Char) (hc : ¬ c = '.') :
    rstripDot (xs ++ [c]) = xs ++ [c] := by
  simp [rstripDot, List.reverse_append, List.dropWhile_cons, hc]

theorem labelsOf_strLabel (q : List String) (hne : q ≠ [])
    (hcl : ∀ l ∈ q, l.data ≠ [] ∧ '.' ∉ l.data) :
    labelsOf (strLabel q) = q := by
  have hclL : ∀ l ∈ q.map String.data, l ≠ [] ∧ '.' ∉ l := by
    intro l hl
    obtain ⟨s, hs, rfl⟩ := List.mem_map.mp hl
    exact hcl s hs
  have hLne : q.map String.data ≠ [] := by
    cases q
    · exact absurd rfl hne
    · simp
  obtain ⟨zs, c, hj, hc⟩ := joinDots_concat (q.map String.data) hLne hclL
  have hdata : (strLabel q).data = joinDots (q.map String.data) ++ ['.'] := rfl
  unfold labelsOf
  rw [hdata, rstrip_append_dot, hj, rstrip_concat_ne zs c hc, ← hj]
  have hjne : joinDots (q.map String.data) ≠ [] := by
    rw [hj]
    simp
  rw [if_neg hjne, splitOnChar_joinDots _ hLne hclL]
  rw [List.map_map]
  have hid : ∀ (r : List String), List.map (String.mk ∘ String.data) r = r := by
    intro r
    induction r with
    | nil => rfl
    | cons a t ih => simp [Function.comp, ih]
  exact hid q

theorem labelEq_iff (a b : List String) :
    labelEq a b = true ↔ a.map pyLower = b.map pyLower := by
  simp [labelEq]

theorem labelEq_refl (q : List String) : labelEq q q = true := by
  simp [labelEq]

/-! ### Store membership lemmas -/

theorem mem_dictInsert_self (st : Store) (k : String) (v : Json) :
    (k, v) ∈ dictInsert st k v := by
  induction st with
  | nil => simp [dictInsert]
  | cons p t ih =>
    by_cases hp : (p.1 == k) = true
    · simp [dictInsert, hp]
    · simp [dictInsert, bne_false hp]
      right
      exact ih

theorem dictMem_insert_self (st : Store) (k : String) (v : Json) :
    dictMem (dictInsert st k v) k = true := by
  induction st with
  | nil => simp [dictInsert, dictMem]
  | cons p t ih =>
    by_cases hp : (p.1 == k) = true
    · simp [dictInsert, dictMem, hp]
    · simp [dictInsert, dictMem, bne_false hp, ih]

theorem mem_dictInsert (st : Store) (k : String) (v : Json) (kv : String × Json)
    (h : kv ∈ dictInsert st k v) : kv ∈ st ∨ kv = (k, v) := by
  induction st with
  | nil =>
    simp [dictInsert] at h
    exact Or.inr h
  | cons p t ih =>
    by_cases hp : (p.1 == k) = true
    · rw [dictInsert, if_pos hp] at h
      rcases List.mem_cons.mp h with h | h
      · exact Or.inr h
      · exact Or.inl (List.mem_cons_of_mem _ h)
    · rw [dictInsert, if_neg (by simp [bne_false hp])] at h
      rcases List.mem_cons.mp h with h | h
      · exact Or.inl (h ▸ List.mem_cons_self _ _)
      · rcases ih h with h2 | h2
        · exact Or.inl (List.mem_cons_of_mem _ h2)
        · exact Or.inr h2

theorem mem_dictRemove (st : Store) (k : String) (kv : String × Json)
    (h : kv ∈ dictRemove st k) : kv ∈ st ∧ (kv.1 == k) = false := by
  induction st with
  | nil => simp [dictRemove] at h
  | cons p t ih =>
    by_cases hp : (p.1 == k) = true
    · rw [dictRemove, if_pos hp] at h
      obtain ⟨h1, h2⟩ := ih h
      exact ⟨List.mem_cons_of_mem _ h1, h2⟩
    · rw [dictRemove, if_neg (by simp [bne_false hp])] at h
      rcases List.mem_cons.mp h with h | h
      · exact ⟨h ▸ List.mem_cons_self _ _, h ▸ bne_false hp⟩
      · obtain ⟨h1, h2⟩ := ih h
        exact ⟨List.mem_cons_of_mem _ h1, h2⟩

theorem dictGet_isSome_of_mem (st : Store) (kv : String × Json)
    (h : kv ∈ st) : ∃ v, dictGet st kv.1 = some v := by
  induction st with
  | nil => simp at h
  | cons p t ih =>
    by_cases hp : (p.1 == kv.1) = true
    · exact ⟨p.2, by simp [dictGet, hp]⟩
    · rcases List.mem_cons.mp h with h | h
      · exact absurd (h ▸ beq_self_eq_true kv.1) (h ▸ hp)
      · obtain ⟨v, hv⟩ := ih h
        exact ⟨v, by simp [dictGet, bne_false hp, hv]⟩

/-- C10 (amended): the resolver's membership check does not in general
guarantee that the subsequent dictionary access succeeds; it does as
soon as every store key is in canonical form — lower-case and re-rendered
by the label parser to itself, i.e. a dotted fully-qualified name with
its trailing root dot.  For such stores, a successful (case-insensitive)
membership check implies the access under the lowered dotted form of the
query name finds a value, and the resolver's KeyError branch cannot be
taken. -/
theorem claim_C10 (store : Store) (q : List String)
    (hgood : ∀ kv ∈ store,
      pyLower kv.1 = kv.1 ∧ strLabel (labelsOf kv.1) = kv.1)
    (hmem : store.any (fun kv => labelEq q (labelsOf kv.1)) = true) :
    (∃ v, dictGet store (pyLower (strLabel q)) = some v) ∧
    (∀ cfg serial, matchSuffix q (labelsOf cfg.domain) = true →
      labelEq q (labelsOf cfg.domain) = false →
      resolve cfg serial store q "TXT" ≠ .error .keyError) := by
  obtain ⟨kv, hkv, heq⟩ := List.any_eq_true.mp hmem
  obtain ⟨hlow, hrt⟩ := hgood kv hkv
  have hkey : pyLower (strLabel q) = kv.1 := by
    have h1 : q.map pyLower = (labelsOf kv.1).map pyLower :=
      (labelEq_iff _ _).mp heq
    calc pyLower (strLabel q) = strLabel (q.map pyLower) := pyLower_strLabel q
      _ = strLabel ((labelsOf kv.1).map pyLower) := by rw [h1]
      _ = pyLower (strLabel (labelsOf kv.1)) := (pyLower_strLabel _).symm
      _ = pyLower kv.1 := by rw [hrt]
      _ = kv.1 := hlow
  obtain ⟨v, hv⟩ := dictGet_isSome_of_mem store kv hkv
  have hv' : dictGet store (pyLower (strLabel q)) = some v := by
    rw [hkey]
    exact hv
  refine ⟨⟨v, hv'⟩, ?_⟩
  intro cfg serial hs ha
  cases v <;> simp [resolve, hs, ha, hmem, hv']

/-- Witness for C10 on a store whose key is canonical, queried with
mixed case: the lookup finds the value and the resolver does not raise. -/
theorem claim_C10_witness :
    (∃ v, dictGet [("x.example.com.", Json.str "v")]
        (pyLower (strLabel ["X", "Example", "Com"])) = some v) ∧
    resolve cfgEx 1 [("x.example.com.", Json.str "v")]
        ["X", "Example", "Com"] "TXT" ≠ .error .keyError := by
  have h := claim_C10 [("x.example.com.", Json.str "v")]
    ["X", "Example", "Com"]
    (by
      intro kv hkv
      rcases List.mem_singleton.mp hkv with rfl
      exact ⟨by decide, by decide⟩)
    (by decide)
  exact ⟨h.1, h.2 cfgEx 1 (by decide) (by decide)⟩

/-- Counterexample to C10 as stated: a key stored verbatim without its
trailing dot, exactly as `/present` stores it, passes the membership
check for the corresponding query yet the dictionary access under the
lowered dotted form misses, and the resolver's KeyError branch is
reached. -/
theorem claim_C10_cex :
    ([("x.example.com", Json.str "v")].any
      (fun kv => labelEq ["x", "example", "com"] (labelsOf kv.1))) = true ∧
    dictGet [("x.example.com", Json.str "v")]
        (pyLower (strLabel ["x", "example", "com"])) = none ∧
    resolve cfgEx 1 [("x.example.com", Json.str "v")]
        ["x", "example", "com"] "TXT" = .error .keyError :=
  ⟨rfl, rfl, rfl⟩

/-- C1 (amended): take a query name `q` that lies strictly inside the
zone and whose labels are nonempty, dot-free and lower-case, and let `f`
be its canonical dotted form `strLabel q` (lower-case, trailing root
dot).  If `f` is matched by the authorized credential's allow-list and
no other store key aliases `q`, then a successful `/present` of
`(f, v)` stores exactly `(f, v)`, a TXT query for `q` then answers
NOERROR with a TXT record holding `v` at TTL 1 (SOA authority), a
subsequent successful `/cleanup` of `f` removes the binding, and the
same TXT query then answers NXDOMAIN. -/
theorem claim_C1 (cfg : Config) (serial : Nat) (store : Store)
    (q : List String) (v : String) (reqP reqC : Request)
    (hq0 : q ≠ []) (hq1 : ∀ l ∈ q, l.data ≠ [] ∧ '.' ∉ l.data)
    (hq2 : q.map pyLower = q)
    (hz1 : matchSuffix q (labelsOf cfg.domain) = true)
    (hz2 : labelEq q (labelsOf cfg.domain) = false)
    (hother : ∀ kv ∈ store, labelEq q (labelsOf kv.1) = false)
    (auth tok : String) (bs : List Nat) (credChars : List Char)
    (name secret : String) (keys : List (String × KeyConfig))
    (kc : KeyConfig) (stored : String)
    (hsplit : pySplit auth ' ' = ["Basic", tok])
    (hb64 : b64decodePy tok = .ok bs)
    (hutf : utf8Decode? bs = some credChars)
    (hcred : pySplit (String.mk credChars) ':' = [name, secret])
    (hkeys : cfg.api_keys = some keys)
    (hlook : lookupKey keys name = some kc)
    (hkey : kc.secretKey = some stored)
    (hcmp : secure_pass_compare secret stored = true)
    (hmatch : (kc.domains.getD []).any
      (fun d => fnmatchPy (strLabel q) d) = true)
    (clP : String) (clPi : Int) (jP : Json)
    (hPpath : reqP.path = "/present")
    (hPauth : reqP.authorization = some auth)
    (hPcl : reqP.contentLength = some clP)
    (hPint : pyInt? clP = some clPi)
    (hPjson : jsonLoads (pyRead reqP.rawBody clPi) = .ok jP)
    (hPfq : jsonGetItem jP "fqdn" = .ok (.str (strLabel q)))
    (hPval : jsonGetItem jP "value" = .ok (.str v))
    (clC : String) (clCi : Int) (jC : Json)
    (hCpath : reqC.path = "/cleanup")
    (hCauth : reqC.authorization = some auth)
    (hCcl : reqC.contentLength = some clC)
    (hCint : pyInt? clC = some clCi)
    (hCjson : jsonLoads (pyRead reqC.rawBody clCi) = .ok jC)
    (hCfq : jsonGetItem jC "fqdn" = .ok (.str (strLabel q)))
    (hCval : jsonGetItem jC "value" = .ok (.str v)) :
    do_POST cfg reqP true store =
      (.sent [200], dictInsert store (strLabel q) (.str v)) ∧
    resolve cfg serial (dictInsert store (strLabel q) (.str v)) q "TXT" =
      .ok ⟨.NOERROR, [⟨q, "TXT", 1, .txt v⟩], [soaRR cfg serial]⟩ ∧
    do_POST cfg reqC true (dictInsert store (strLabel q) (.str v)) =
      (.sent [200],
        dictRemove (dictInsert store (strLabel q) (.str v)) (strLabel q)) ∧
    resolve cfg serial
        (dictRemove (dictInsert store (strLabel q) (.str v)) (strLabel q))
        q "TXT" = .ok ⟨.NXDOMAIN, [], [soaRR cfg serial]⟩ := by
  have hlab : labelsOf (strLabel q) = q := labelsOf_strLabel q hq0 hq1
  have hkeyq : pyLower (strLabel q) = strLabel q := by
    rw [pyLower_strLabel, hq2]
  refine ⟨?_, ?_, ?_, ?_⟩
  · simp [do_POST, hPauth, hsplit, hb64, hutf, hcred, hkeys, hlook, hkey,
      hcmp, hPcl, hPint, hPjson, hPfq, hPval, hmatch, hPpath]
  · have hmem : (dictInsert store (strLabel q) (.str v)).any
        (fun kv => labelEq q (labelsOf kv.1)) = true :=
      List.any_eq_true.mpr
        ⟨(strLabel q, .str v), mem_dictInsert_self store _ _,
          by simp [hlab, labelEq_refl]⟩
    have hget : dictGet (dictInsert store (strLabel q) (.str v))
        (pyLower (strLabel q)) = some (.str v) := by
      rw [hkeyq]
      exact dictGet_insert_self store _ _
    simp [resolve, hz1, hz2, hmem, hget]
  · simp [do_POST, hCauth, hsplit, hb64, hutf, hcred, hkeys, hlook, hkey,
      hcmp, hCcl, hCint, hCjson, hCfq, hCval, hmatch, hCpath,
      dictMem_insert_self]
  · have hmem2 : (dictRemove (dictInsert store (strLabel q) (.str v))
        (strLabel q)).any (fun kv => labelEq q (labelsOf kv.1)) = false := by
      apply List.any_eq_false.mpr
      intro kv hkv
      obtain ⟨hins, hne⟩ := mem_dictRemove _ _ _ hkv
      rcases mem_dictInsert _ _ _ _ hins with hin | rfl
      · simp [hother kv hin]
      · simp at hne
    simp [resolve, hz1, hz2, hmem2]

/-- Witness for C1: the full round trip on the sample zone for the
canonical name `x.example.com.` with value `v1`. -/
theorem claim_C1_witness :
    do_POST cfgDot (mkReq "/present" "x.example.com." "v1") true [] =
      (.sent [200],
        dictInsert [] (strLabel ["x", "example", "com"]) (.str "v1")) ∧
    resolve cfgDot 1
        (dictInsert [] (strLabel ["x", "example", "com"]) (.str "v1"))
        ["x", "example", "com"] "TXT" =
      .ok ⟨.NOERROR, [⟨["x", "example", "com"], "TXT", 1, .txt "v1"⟩],
        [soaRR cfgDot 1]⟩ ∧
    do_POST cfgDot (mkReq "/cleanup" "x.example.com." "v1") true
        (dictInsert [] (strLabel ["x", "example", "com"]) (.str "v1")) =
      (.sent [200],
        dictRemove
          (dictInsert [] (strLabel ["x", "example", "com"]) (.str "v1"))
          (strLabel ["x", "example", "com"])) ∧
    resolve cfgDot 1
        (dictRemove
          (dictInsert [] (strLabel ["x", "example", "com"]) (.str "v1"))
          (strLabel ["x", "example", "com"]))
        ["x", "example", "com"] "TXT" =
      .ok ⟨.NXDOMAIN, [], [soaRR cfgDot 1]⟩ :=
  claim_C1 cfgDot 1 [] ["x", "example", "com"] "v1"
    (mkReq "/present" "x.example.com." "v1")
    (mkReq "/cleanup" "x.example.com." "v1")
    (by decide) (by decide) (by decide) (by decide) (by decide)
    (by intro kv hkv; simp at hkv)
    "Basic YWxpY2U6czNjcjN0" "YWxpY2U6czNjcjN0" (strBytes "alice:s3cr3t")
    ("alice:s3cr3t".data) "alice" "s3cr3t" _ _ "s3cr3t"
    rfl rfl rfl rfl rfl rfl rfl (by decide) (by decide)
    _ ((strBytes (reqBody "x.example.com." "v1")).length : Int)
    (Json.obj [("fqdn", Json.str "x.example.com."),
      ("value", Json.str "v1")])
    rfl rfl rfl (by decide) rfl rfl rfl
    _ ((strBytes (reqBody "x.example.com." "v1")).length : Int)
    (Json.obj [("fqdn", Json.str "x.example.com."),
      ("value", Json.str "v1")])
    rfl rfl rfl (by decide) rfl rfl rfl

/-- Counterexample to C1 as stated: the fqdn `x.example.com` (no
trailing dot) is matched by the allow-list `*.example.com` and its
present succeeds with 200, but the TXT query for it then raises KeyError
inside the resolver instead of answering NOERROR with the value. -/
theorem claim_C1_cex :
    do_POST cfgEx (mkReq "/present" "x.example.com" "v1") true [] =
      (.sent [200], [("x.example.com", Json.str "v1")]) ∧
    resolve cfgEx 1 [("x.example.com", Json.str "v1")]
        ["x", "example", "com"] "TXT" = .error .keyError :=
  ⟨rfl, rfl⟩

end AcmeDns
